import Mathlib

/-!
Shallow embedding of the chain-organization core of the libbitcoin-node
repository (chasers and peer protocols), together with theorems settling the
frozen claims about it.

Conventions of the embedding:
* hashes, header links and heights are `Nat`;
* `uint256_t` arithmetic (cumulative proof-of-work) is `Nat` reduced modulo
  `2 ^ 256`, since the C++ type is an unchecked 256-bit unsigned integer that
  wraps on overflow;
* the external validators (`check`, `accept`, `connect`, `populate`) and the
  compact-bits-to-proof function are out of scope per the specification and are
  taken as explicit function parameters;
* fallible archive queries return `Option`;
* event emissions (`notify`/handler invocations) are returned as values.
-/

/-- Error/status codes surfaced by the embedded operations.  `other n` stands
for any further code produced by the abstract validators. -/
inductive Code where
  | success
  | serviceStopped
  | duplicate
  | orphan
  | checkpointConflict
  | storeIntegrity
  | internalError
  | blockUnconfirmable
  | blockConfirmable
  | blockPreconfirmable
  | unassociated
  | validationBypass
  | missingPreviousOutput
  | protocolViolation
  | other (n : Nat)
  deriving DecidableEq, Repr

/-- The `uint256_t` modulus: sums of proofs wrap modulo this value. -/
def u256 : Nat := 2 ^ 256

/-- Wrapping 256-bit addition, the behaviour of `uint256_t` `operator+=`. -/
def uadd (a b : Nat) : Nat := (a + b) % u256

/-- Header record: `previous_block_hash`, `timestamp`, `bits`, and the
content hash the header hashes to (modelled as a field, collisions ignored). -/
structure Header where
  hsh : Nat
  prev : Nat
  bits : Nat
  timestamp : Nat
  deriving DecidableEq, Repr

/-- Modelled from the spec: `ChainState` is a derived snapshot with `height`,
`hash` and `cumulative_work`, constructed purely by rolling forward from a
parent through one header (`chain::chain_state` lives outside this repository;
only these three observations are consumed by the embedded code). -/
structure ChainState where
  height : Nat
  hsh : Nat
  work : Nat
  deriving DecidableEq, Repr

/-- Modelled from the spec: rolling a `ChainState` forward through one header
increments the height, adopts the header hash and accumulates the header's
proof into the 256-bit cumulative work. -/
def rollForward (proof : Nat → Nat) (parent : ChainState) (h : Header) :
    ChainState :=
  { height := parent.height + 1, hsh := h.hsh,
    work := uadd parent.work (proof h.bits) }

/-- A configured checkpoint: a `(hash, height)` pair. -/
structure Checkpoint where
  hsh : Nat
  height : Nat
  deriving DecidableEq, Repr

/-- `checkpoint::is_at`: some configured checkpoint has exactly this height. -/
def checkpointIsAt (cps : List Checkpoint) (height : Nat) : Bool :=
  cps.any fun cp => cp.height = height

/-- `checkpoint::is_conflict`: a configured checkpoint has this height but a
different hash. -/
def checkpointIsConflict (cps : List Checkpoint) (hsh height : Nat) : Bool :=
  cps.any fun cp => cp.height = height && cp.hsh ≠ hsh

/-- `milestone.equals(hash, height)`: the single configured milestone matches
both hash and height. -/
def milestoneEquals (m : Checkpoint) (hsh height : Nat) : Bool :=
  m.hsh = hsh && m.height = height

-- ============================================================================
-- ChaserCheck: the work pool of unassociated header ranges (chaser_check.cpp).
-- ============================================================================

namespace ChaserCheck

/-- An `AssociationMap` chunk is modelled as the list of its entries. -/
abbrev Chunk := List Nat

/-- The chaser's state: `maps_`, the FIFO of chunks. -/
structure St where
  maps : List Chunk
  deriving DecidableEq, Repr

/-- Events notified onto the bus by the check chaser. -/
inductive Ev where
  | download (count : Nat)
  | purge (top : Nat)
  deriving DecidableEq, Repr

/-- `chaser_check::get_map`: an empty pool yields a fresh empty chunk,
otherwise the front chunk is popped. -/
def getMap (table : List Chunk) : Chunk × List Chunk :=
  match table with
  | [] => ([], [])
  | m :: rest => (m, rest)

/-- `chaser_check::do_get_hashes`: pop via `get_map` and invoke the handler
with `success` and the chunk.  Returns (new state, handler code, chunk). -/
def doGetHashes (s : St) : St × Code × Chunk :=
  let p := getMap s.maps
  ({ maps := p.2 }, Code.success, p.1)

/-- `chaser_check::do_put_hashes`: a non-empty chunk is appended to the back of
`maps_` and a `download` event of its size is notified; the handler is always
invoked with `success`.  Returns (new state, events, handler code). -/
def doPutHashes (s : St) (m : Chunk) : St × List Ev × Code :=
  if m.isEmpty then (s, [], Code.success)
  else ({ maps := s.maps ++ [m] }, [Ev.download m.length], Code.success)

end ChaserCheck

-- ============================================================================
-- ChaserPreconfirm: in-order block validation (chaser_preconfirm.cpp).
-- ============================================================================

namespace Preconfirm

/-- The slice of the archive interface consumed by the preconfirm chaser.
`assoc`, `mall` and the three mark lists model `is_associated`,
`is_malleable` and the per-link block validation states; `txsConn` models the
`txs_connected` mark. -/
structure VArch where
  assoc : List Nat
  mall : List Nat
  confirmableMarks : List Nat
  preconfMarks : List Nat
  unconfMarks : List Nat
  txsConn : List Nat
  deriving DecidableEq, Repr

/-- `get_block_state`: the stored validation state of the block at a link
(`unassociated` standing for any non-terminal state). -/
def blockState (a : VArch) (l : Nat) : Code :=
  if a.unconfMarks.contains l then Code.blockUnconfirmable
  else if a.confirmableMarks.contains l then Code.blockConfirmable
  else if a.preconfMarks.contains l then Code.blockPreconfirmable
  else Code.unassociated

/-- `set_block_preconfirmable`. -/
def markPreconf (a : VArch) (l : Nat) : VArch :=
  { a with preconfMarks := l :: a.preconfMarks }

/-- `set_txs_connected`. -/
def markTxsConn (a : VArch) (l : Nat) : VArch :=
  { a with txsConn := l :: a.txsConn }

/-- `set_block_unconfirmable`. -/
def markUnconf (a : VArch) (l : Nat) : VArch :=
  { a with unconfMarks := l :: a.unconfMarks }

/-- The external collaborators of `chaser_preconfirm::validate`: the bypass
height test, block/context loading, and the abstract validators `populate`,
`accept` and `connect` (out of scope per the spec, taken as parameters). -/
structure VOracle where
  bypass : Nat → Bool
  getBlock : Nat → Option Nat
  getCtx : Nat → Option Nat
  populate : Nat → Bool
  accept : Nat → Nat → Code
  connect : Nat → Nat → Code

/-- `chaser_preconfirm::validate(link, height)`: bypass when under the bypass
height and not malleable; return any cached terminal block state; fail
`store_integrity` when block or context cannot be loaded; fail
`missing_previous_output` when `populate` fails.  The final
`return ec = block.accept(ctx, ...) ? ec : block.connect(ctx);` parses in C++
as `ec = (accept(...) ? ec : connect(ctx))` — assignment binds looser than the
conditional — so when `accept` fails (is truthy) the function returns the
stale `ec` still holding the earlier `get_block_state` result, and only when
`accept` succeeds does it return the `connect` code. -/
def validateLk (o : VOracle) (a : VArch) (link height : Nat) : Code :=
  if o.bypass height && !(a.mall.contains link) then Code.validationBypass
  else
    let ec := blockState a link
    if ec = Code.blockConfirmable ∨ ec = Code.blockUnconfirmable ∨
        ec = Code.blockPreconfirmable then ec
    else
      match o.getBlock link, o.getCtx link with
      | some b, some ctx =>
        if !(o.populate b) then Code.missingPreviousOutput
        else if o.accept b ctx ≠ Code.success then ec
        else o.connect b ctx
      | _, _ => Code.storeIntegrity

/-- Events notified by the preconfirm chaser. -/
inductive PEv where
  | preconfirmable (c : Code) (height : Nat)
  | malleated (c : Code) (link : Nat)
  | unpreconfirmable (c : Code) (link : Nat)
  deriving DecidableEq, Repr

/-- The chaser's state: the `validated_` height, the archive marks, the
notifications emitted so far, and the fault/closed flags. -/
structure PSt where
  validated : Nat
  arch : VArch
  events : List PEv
  faulted : Bool
  closed : Bool
  deriving DecidableEq, Repr

/-- The drain loop body of `chaser_preconfirm::do_bump`, iterating from
`height` while the candidate at the height exists and is associated.  `cand`
is the candidate chain (index = height ↦ link); the loop never mutates it.
The first argument is structural fuel: `bumpFrom` below supplies the number of
heights remaining on the candidate chain, so fuel `0` coincides with the
loop's `to_candidate` lookup failing (height beyond the chain top). -/
def bumpGo (o : VOracle) (cand : List Nat) : Nat → Nat → PSt → PSt
  | 0, _, s => s
  | n + 1, height, s =>
    if s.closed then s
    else
      match cand[height]? with
      | none => s
      | some link =>
        if !(s.arch.assoc.contains link) then s
        else
          let c := validateLk o s.arch link height
          if c ≠ Code.success then
            if c = Code.validationBypass ∨ c = Code.blockConfirmable ∨
                c = Code.blockPreconfirmable then
              bumpGo o cand n (height + 1)
                { s with validated := s.validated + 1,
                         events := s.events ++ [PEv.preconfirmable c height] }
            else if c = Code.storeIntegrity then
              { s with faulted := true }
            else if s.arch.mall.contains link then
              { s with events := s.events ++ [PEv.malleated c link] }
            else
              let a := if c ≠ Code.blockUnconfirmable then markUnconf s.arch link
                       else s.arch
              { s with arch := a,
                       events := s.events ++ [PEv.unpreconfirmable c link] }
          else
            bumpGo o cand n (height + 1)
              { s with validated := s.validated + 1,
                       arch := markPreconf (markTxsConn s.arch link) link,
                       events := s.events ++ [PEv.preconfirmable Code.success height] }

/-- The drain loop of `chaser_preconfirm::do_bump` started at `height`. -/
def bumpFrom (o : VOracle) (cand : List Nat) (height : Nat) (s : PSt) : PSt :=
  bumpGo o cand (cand.length - height) height s

/-- `chaser_preconfirm::do_bump`: drain from the height after `validated_`. -/
def doBump (o : VOracle) (cand : List Nat) (s : PSt) : PSt :=
  bumpFrom o cand (s.validated + 1) s

/-- `chaser_preconfirm::do_checked(height)`: bump only when the height is the
one immediately after `validated_`. -/
def doChecked (o : VOracle) (cand : List Nat) (s : PSt) (height : Nat) : PSt :=
  if height = s.validated + 1 then doBump o cand s else s

/-- `chaser_preconfirm::do_disorganized(top)`: set `validated_` to the
confirmed top, then invoke the checked handler at that height. -/
def doDisorganized (o : VOracle) (cand : List Nat) (s : PSt) (top : Nat) :
    PSt :=
  doChecked o cand { s with validated := top } top

/-- `chaser_preconfirm::do_regressed(branch_point)`: lower `validated_` to the
branch point when it is above it, then invoke the checked handler there. -/
def doRegressed (o : VOracle) (cand : List Nat) (s : PSt) (p : Nat) : PSt :=
  let s' := if p < s.validated then { s with validated := p } else s
  doChecked o cand s' p

end Preconfirm

-- ============================================================================
-- ProtocolHeaderIn_31800: per-peer header ingest
-- (protocol_header_in_31800.cpp, handle_receive_headers).
-- ============================================================================

namespace HeaderIn

/-- Outcome of processing one `headers` message: the `(header, rolled state)`
pairs handed to `organize` in order, the stop code if the channel was stopped,
and the final rolling chain state `state_`. -/
structure HRes where
  organized : List (Header × ChainState)
  stop : Option Code
  final : ChainState
  deriving DecidableEq, Repr

/-- `protocol_header_in_31800::handle_receive_headers`: for each header of the
message in order — stop the channel with `protocol_violation` when its
`previous_hash` differs from the rolling state's hash, when `check` fails, when
the `(hash, height+1)` conflicts with a checkpoint, or when `accept` against
the rolled-forward state fails; otherwise roll `state_` forward and hand the
header with the new context to `organize`.  `checkH` and `acceptH` are the
abstract header validators. -/
def handleHeaders (proof : Nat → Nat) (checkH : Header → Code)
    (acceptH : Header → ChainState → Code) (cps : List Checkpoint) :
    ChainState → List Header → HRes
  | st, [] => { organized := [], stop := none, final := st }
  | st, h :: rest =>
    if h.prev ≠ st.hsh then
      { organized := [], stop := some Code.protocolViolation, final := st }
    else if checkH h ≠ Code.success then
      { organized := [], stop := some Code.protocolViolation, final := st }
    else if checkpointIsConflict cps h.hsh (st.height + 1) then
      { organized := [], stop := some Code.protocolViolation, final := st }
    else
      let st' := rollForward proof st h
      if acceptH h st' ≠ Code.success then
        { organized := [], stop := some Code.protocolViolation, final := st' }
      else
        let r := handleHeaders proof checkH acceptH cps st' rest
        { organized := (h, st') :: r.organized, stop := r.stop,
          final := r.final }

/-- Specification-side: each header of a list paired with the chain state
rolled forward through it, in message order. -/
def rollStates (proof : Nat → Nat) :
    ChainState → List Header → List (Header × ChainState)
  | _, [] => []
  | st, h :: t =>
    let st' := rollForward proof st h
    (h, st') :: rollStates proof st' t

/-- Specification-side: the chain state after rolling through a whole list. -/
def rollAll (proof : Nat → Nat) : ChainState → List Header → ChainState
  | st, [] => st
  | st, h :: t => rollAll proof (rollForward proof st h) t

/-- Specification-side: every header of the list, in sequence, passes the
previous-hash continuity test, `check`, the checkpoint-conflict test and
`accept` against its rolled-forward state. -/
def goodRun (proof : Nat → Nat) (checkH : Header → Code)
    (acceptH : Header → ChainState → Code) (cps : List Checkpoint) :
    ChainState → List Header → Bool
  | _, [] => true
  | st, h :: t =>
    h.prev = st.hsh && checkH h = Code.success &&
      !(checkpointIsConflict cps h.hsh (st.height + 1)) &&
      (acceptH h (rollForward proof st h) = Code.success &&
        goodRun proof checkH acceptH cps (rollForward proof st h) t)

end HeaderIn

-- ============================================================================
-- ChaserOrganize / ChaserHeader: the organize state machine
-- (chaser_organize.ipp, chaser_header.cpp).
-- ============================================================================

namespace Org

/-- A header record in the archive: the header, the context height it was
stored with, and its header validation state. -/
structure HRec where
  header : Header
  height : Nat
  hstate : Code
  deriving DecidableEq, Repr

/-- Modelled from the spec: the abstract archive/store interface consumed by
the organizer — a link-indexed header table (`headers`, later insertions at
the head shadow nothing since links are fresh), the link allocator, and the
candidate chain as the list of links indexed by height. -/
structure Archive where
  headers : List (Nat × HRec)
  nextLink : Nat
  candidate : List Nat
  deriving DecidableEq, Repr

/-- Look a link up in the header table. -/
def lookupLink (a : Archive) (l : Nat) : Option HRec :=
  (a.headers.find? fun p => p.1 == l).map (·.2)

/-- `to_header(hash)`: the link of the header with this hash (none =
terminal). -/
def toHeader (a : Archive) (hsh : Nat) : Option Nat :=
  (a.headers.find? fun p => p.2.header.hsh == hsh).map (·.1)

/-- `get_height(link)`. -/
def getHeight (a : Archive) (l : Nat) : Option Nat :=
  (lookupLink a l).map (·.height)

/-- `get_header_state(link)`. -/
def getHeaderState (a : Archive) (l : Nat) : Option Code :=
  (lookupLink a l).map (·.hstate)

/-- `get_bits(link)`. -/
def getBits (a : Archive) (l : Nat) : Option Nat :=
  (lookupLink a l).map (·.header.bits)

/-- `to_parent(link)`: the link of the stored parent header. -/
def toParent (a : Archive) (l : Nat) : Option Nat :=
  match lookupLink a l with
  | none => none
  | some r => toHeader a r.header.prev

/-- `get_top_candidate`: height of the candidate chain top. -/
def topCandidate (a : Archive) : Nat := a.candidate.length - 1

/-- `to_candidate(height)`: the candidate link at a height (none =
terminal). -/
def toCandidate (a : Archive) (h : Nat) : Option Nat := a.candidate[h]?

/-- `is_candidate_block(link)` on a possibly terminal link. -/
def isCandidateBlock (a : Archive) (l : Option Nat) : Bool :=
  match l with
  | none => false
  | some x => a.candidate.contains x

/-- `push_candidate(link)`. -/
def pushCandidate (a : Archive) (l : Nat) : Archive :=
  { a with candidate := a.candidate ++ [l] }

/-- `pop_candidate()`: fails on an empty candidate chain. -/
def popCandidate (a : Archive) : Option Archive :=
  if a.candidate.isEmpty then none
  else some { a with candidate := a.candidate.dropLast }

/-- Modelled from the spec: `set_link(entry, context)` archives a header under
a fresh link with the context height (idempotent on an already archived
hash, returning its existing link). -/
def setLink (a : Archive) (h : Header) (ctxHeight : Nat) : Nat × Archive :=
  match toHeader a h.hsh with
  | some l => (l, a)
  | none =>
    (a.nextLink,
      { a with
        headers := (a.nextLink,
          { header := h, height := ctxHeight,
            hstate := Code.unassociated }) :: a.headers,
        nextLink := a.nextLink + 1 })

/-- `get_bits(to_candidate(height))` as used by `get_is_strong`. -/
def getBitsAt (a : Archive) (height : Nat) : Option Nat :=
  (toCandidate a height).bind (getBits a)

/-- The countdown accumulation loop of `get_is_strong`, structurally recursive
on the number `n` of candidate heights left to visit (heights
`point + n` down to `point + 1`).  `none` models a failed `get_bits` query
(the function returning `false`); `some false` is the early weak exit
(accumulated candidate work reached `work`); `some true` is strong (the loop
reached the branch point). -/
def isStrongN (f : Nat → Option Nat) (proof : Nat → Nat) (work point : Nat) :
    Nat → Nat → Option Bool
  | _acc, 0 => some true
  | acc, n + 1 =>
    match f (point + n + 1) with
    | none => none
    | some bits =>
      let acc' := uadd acc (proof bits)
      if work ≤ acc' then some false else isStrongN f proof work point acc' n

/-- `get_is_strong(strong, work, branch_point)` over an abstract per-height
bits query `f`, started with zero accumulated work at the top. -/
def getIsStrongGen (f : Nat → Option Nat) (proof : Nat → Nat)
    (work top point : Nat) : Option Bool :=
  isStrongN f proof work point 0 (top - point)

/-- `get_is_strong` against the archive's candidate chain. -/
def getIsStrong (proof : Nat → Nat) (a : Archive) (work point : Nat) :
    Option Bool :=
  getIsStrongGen (getBitsAt a) proof work (topCandidate a) point

/-- Specification-side: the full (unbounded, non-wrapping) sum of the proofs
at heights `point + 1 .. point + n` queried through `f`. -/
def sumN (f : Nat → Option Nat) (proof : Nat → Nat) (point : Nat) :
    Nat → Nat
  | 0 => 0
  | n + 1 =>
    (match f (point + n + 1) with
     | none => 0
     | some bits => proof bits) + sumN f proof point n

/-- A tree node: the cached header and its chain state. -/
structure TreeNode where
  header : Header
  state : ChainState
  deriving DecidableEq, Repr

/-- The organizer's header tree, keyed by hash. -/
abbrev Tree := List (Nat × TreeNode)

/-- Tree lookup by hash. -/
def treeFind (t : Tree) (hsh : Nat) : Option TreeNode :=
  (t.find? fun p => p.1 == hsh).map (·.2)

/-- `cache`: insert a node under its hash (callers check absence first). -/
def treeInsert (t : Tree) (hsh : Nat) (n : TreeNode) : Tree := (hsh, n) :: t

/-- `tree_.extract(key)`: remove and return the node under a key. -/
def treeExtract (t : Tree) (hsh : Nat) : Option (TreeNode × Tree) :=
  match treeFind t hsh with
  | none => none
  | some n => some (n, t.filter fun p => !(p.1 == hsh))

/-- Well-formedness of the tree: every node is keyed by its own header's
hash — the invariant `cache` maintains by inserting under
`block_ptr->hash()`. -/
def treeWF (t : Tree) : Bool := t.all fun p => p.2.header.hsh == p.1

/-- The organizer's state: header tree, cached `state_` (top chain state),
the shared archive, and the closed flag. -/
structure OrgState where
  tree : Tree
  topState : ChainState
  archive : Archive
  closed : Bool
  deriving DecidableEq, Repr

/-- Which path an organize admission took. -/
inductive OrgAction where
  | rejected
  | cached
  | reorganized
  deriving DecidableEq, Repr

/-- Result of one organize admission: the handler's `(code, height)`, the new
organizer state, and the path taken. -/
structure OrganizeResult where
  code : Code
  height : Nat
  st : OrgState
  action : OrgAction
  deriving DecidableEq, Repr

/-- Modelled from the spec: `get_candidate_chain_state(settings, height)`
spans the candidate chain to obtain cumulative work; `candWork a n` is the
wrapped sum of the proofs of candidate heights `0 .. n-1`. -/
def candWork (proof : Nat → Nat) (a : Archive) : Nat → Option Nat
  | 0 => some 0
  | n + 1 =>
    match candWork proof a n, getBitsAt a n with
    | some w, some bits => some (uadd w (proof bits))
    | _, _ => none

/-- Modelled from the spec: the chain state of the candidate chain at a
height — that height, the candidate header's hash there, and the cumulative
work accumulated from genesis. -/
def candidateChainState (proof : Nat → Nat) (a : Archive) (height : Nat) :
    Option ChainState :=
  match toCandidate a height with
  | none => none
  | some l =>
    match lookupLink a l with
    | none => none
    | some r =>
      (candWork proof a (height + 1)).map fun w =>
        { height := height, hsh := r.header.hsh, work := w }

/-- `get_chain_state(hash)`: the cached top state, else the tree, else a full
candidate chain state scan at the archived header's height. -/
def getChainState (proof : Nat → Nat) (s : OrgState) (hsh : Nat) :
    Option ChainState :=
  if s.topState.hsh == hsh then some s.topState
  else
    match treeFind s.tree hsh with
    | some node => some node.state
    | none =>
      match (toHeader s.archive hsh).bind (getHeight s.archive) with
      | some height => candidateChainState proof s.archive height
      | none => none

/-- The tree phase of `get_branch_work`: walk `previous_hash` links through
the tree, accumulating wrapped proof and collecting the branch hashes in walk
order.  Structural fuel bounds the walk; the wrapper supplies more fuel than
the tree has entries, so exhaustion (`none`) only models the infinite loop a
cyclic tree would produce in the source. -/
def treeWalkGo (proof : Nat → Nat) (t : Tree) :
    Nat → Nat → Nat → List Nat → Option (Nat × List Nat × Nat)
  | 0, prev, work, branch =>
    match treeFind t prev with
    | none => some (work, branch, prev)
    | some _ => none
  | n + 1, prev, work, branch =>
    match treeFind t prev with
    | none => some (work, branch, prev)
    | some node =>
      treeWalkGo proof t n node.header.prev
        (uadd work (proof node.header.bits)) (branch ++ [node.header.hsh])

/-- The store phase of `get_branch_work`: from a (possibly terminal) link,
walk `to_parent` until a candidate-chain link is hit, accumulating wrapped
proof and collecting links; a terminal link or failed `get_bits` fails.
Fuel as in `treeWalkGo`. -/
def storeWalkGo (proof : Nat → Nat) (a : Archive) :
    Nat → Option Nat → Nat → List Nat → Option (Nat × List Nat × Nat)
  | fuel, link, work, branch =>
    if isCandidateBlock a link then
      match link with
      | some l => some (work, branch, l)
      | none => none
    else
      match link with
      | none => none
      | some l =>
        match getBits a l with
        | none => none
        | some bits =>
          match fuel with
          | 0 => none
          | n + 1 =>
            storeWalkGo proof a n (toParent a l) (uadd work (proof bits))
              (branch ++ [l])

/-- `get_branch_work(work, branch_point, tree_branch, store_branch, header)`:
start from the new header's proof, walk the tree then the store, and read the
branch point as the height of the candidate link reached. -/
def getBranchWork (proof : Nat → Nat) (t : Tree) (a : Archive) (h : Header) :
    Option (Nat × Nat × List Nat × List Nat) :=
  match treeWalkGo proof t (t.length + 1) h.prev (proof h.bits) [] with
  | none => none
  | some (work1, treeBranch, prev) =>
    match storeWalkGo proof a (a.headers.length + 1) (toHeader a prev)
        work1 [] with
    | none => none
    | some (work, storeBranch, link) =>
      (getHeight a link).map fun point => (work, point, treeBranch, storeBranch)

/-- Pop the candidate chain `n` times (the pop-to-branch-point loop), failing
as `pop_candidate` does on an empty chain. -/
def popN (a : Archive) : Nat → Option Archive
  | 0 => some a
  | n + 1 =>
    match popCandidate a with
    | none => none
    | some a' => popN a' n

/-- Push a list of links onto the candidate chain in order. -/
def pushLinks (a : Archive) (ls : List Nat) : Archive :=
  ls.foldl pushCandidate a

/-- `push(key)` iterated: extract each tree key in order, archive its header
with its state's context height, and push the new link as candidate; a
missing key fails (the source asserts). -/
def pushTreeKeys (t : Tree) (a : Archive) : List Nat → Option (Tree × Archive)
  | [] => some (t, a)
  | k :: ks =>
    match treeExtract t k with
    | none => none
    | some (node, t') =>
      let p := setLink a node.header node.state.height
      pushTreeKeys t' (pushCandidate p.2 p.1) ks

/-- The strong-branch test and reorganization phase of `do_organize`
(everything from `get_is_strong` on): weak branches are cached in the tree
with handler `success`; strong branches pop the candidate chain to the branch
point, push the stored branch in reverse, promote the tree branch in reverse,
push the new entry, and set `state_` to the new state. -/
def organizeStrongPhase (proof : Nat → Nat) (s : OrgState) (hp : Header)
    (state : ChainState) (work point : Nat)
    (treeBranch storeBranch : List Nat) : OrganizeResult :=
  let height := state.height
  match getIsStrong proof s.archive work point with
  | none =>
    ⟨Code.storeIntegrity, height, { s with closed := true }, OrgAction.rejected⟩
  | some false =>
    ⟨Code.success, height,
      { s with tree := treeInsert s.tree hp.hsh ⟨hp, state⟩ },
      OrgAction.cached⟩
  | some true =>
    let top := s.topState.height
    if top < point then
      ⟨Code.storeIntegrity, height, { s with closed := true },
        OrgAction.rejected⟩
    else
      match popN s.archive (top - point) with
      | none =>
        ⟨Code.storeIntegrity, height, { s with closed := true },
          OrgAction.rejected⟩
      | some a1 =>
        let a2 := pushLinks a1 storeBranch.reverse
        match pushTreeKeys s.tree a2 treeBranch.reverse with
        | none =>
          ⟨Code.storeIntegrity, height, { s with closed := true },
            OrgAction.rejected⟩
        | some (t', a3) =>
          let p := setLink a3 hp state.height
          ⟨Code.success, height,
            { tree := t', topState := state,
              archive := pushCandidate p.2 p.1, closed := s.closed },
            OrgAction.reorganized⟩

/-- `chaser_organize::do_organize` instantiated for the header organizer
(`is_block()` false): duplicate/orphan screen, chain state roll-forward,
checkpoint-conflict test, abstract validation, storability gate, branch work
computation and the strong-branch phase.  `validate` and `isStorable` stand
for the organizer's virtual validation and storability tests. -/
def doOrganize (proof : Nat → Nat) (validate : Header → ChainState → Code)
    (isStorable : Header → ChainState → Bool) (cps : List Checkpoint)
    (s : OrgState) (hp : Header) : OrganizeResult :=
  if s.closed then ⟨Code.serviceStopped, 0, s, OrgAction.rejected⟩
  else
    match treeFind s.tree hp.hsh with
    | some node => ⟨Code.duplicate, node.state.height, s, OrgAction.rejected⟩
    | none =>
      match toHeader s.archive hp.hsh with
      | some link =>
        match getHeight s.archive link with
        | none =>
          ⟨Code.storeIntegrity, 0, { s with closed := true },
            OrgAction.rejected⟩
        | some height =>
          let ec := (getHeaderState s.archive link).getD Code.unassociated
          if ec = Code.blockUnconfirmable then
            ⟨ec, height, s, OrgAction.rejected⟩
          else ⟨Code.duplicate, height, s, OrgAction.rejected⟩
      | none =>
        match getChainState proof s hp.prev with
        | none => ⟨Code.orphan, 0, s, OrgAction.rejected⟩
        | some parent =>
          let state := rollForward proof parent hp
          let height := state.height
          if checkpointIsConflict cps hp.hsh height then
            ⟨Code.checkpointConflict, height, s, OrgAction.rejected⟩
          else if validate hp state ≠ Code.success then
            ⟨validate hp state, height, s, OrgAction.rejected⟩
          else if !(isStorable hp state) then
            ⟨Code.success, height,
              { s with tree := treeInsert s.tree hp.hsh ⟨hp, state⟩ },
              OrgAction.cached⟩
          else
            match getBranchWork proof s.tree s.archive hp with
            | none =>
              ⟨Code.storeIntegrity, height, { s with closed := true },
                OrgAction.rejected⟩
            | some (work, point, treeBranch, storeBranch) =>
              organizeStrongPhase proof s hp state work point treeBranch
                storeBranch

end Org

namespace ChaserHdr

/-- The admission phases of `chaser_header::do_organize` up to the storability
gate: rejection with a handler code, caching into the tree with `success`, or
proceeding to the relative-work computation and possible reorganization. -/
inductive Phase where
  | rejected (c : Code) (height : Nat)
  | cached (height : Nat)
  | proceed (state : ChainState) (height : Nat)
  deriving DecidableEq, Repr

/-- `chaser_header::is_current`: true without a currency window, else the
header's timestamp must be within the window of wall-clock `now`. -/
def isCurrentHdr (useWindow : Bool) (now window : Nat) (h : Header) : Bool :=
  if !useWindow then true else now - window ≤ h.timestamp

/-- The storability condition of `chaser_header::do_organize` (lines 175-177):
at a checkpoint height, or equal to the milestone, or current with
cumulative work at least `minimum_work`. -/
def storableHdr (cps : List Checkpoint) (milestone : Checkpoint)
    (useWindow : Bool) (now window minWork : Nat) (h : Header)
    (state : ChainState) : Bool :=
  checkpointIsAt cps state.height ||
    milestoneEquals milestone h.hsh state.height ||
    (isCurrentHdr useWindow now window h && minWork ≤ state.work)

/-- Specification-side reading of the claim's storability condition: at or
below a checkpoint or the milestone height, or current with sufficient
cumulative work. -/
def specStorableHdr (cps : List Checkpoint) (milestone : Checkpoint)
    (useWindow : Bool) (now window minWork : Nat) (h : Header)
    (state : ChainState) : Bool :=
  cps.any (fun cp => state.height ≤ cp.height) ||
    state.height ≤ milestone.height ||
    (isCurrentHdr useWindow now window h && minWork ≤ state.work)

/-- `chaser_header::do_organize` up to and including the storability gate
(lines 113-182): closed and duplicate screens, parent state resolution,
roll-forward, checkpoint-conflict, `check`, `accept`, then the gate.  Returns
the phase and the (possibly extended) tree.  `checkFn`/`acceptFn` are the
abstract header validators. -/
def doOrganizeHdr (proof : Nat → Nat) (checkFn : Header → Code)
    (acceptFn : Header → ChainState → Code) (cps : List Checkpoint)
    (milestone : Checkpoint) (useWindow : Bool) (now window minWork : Nat)
    (s : Org.OrgState) (hp : Header) : Phase × Org.Tree :=
  if s.closed then (Phase.rejected Code.serviceStopped 0, s.tree)
  else if (Org.treeFind s.tree hp.hsh).isSome ||
      (Org.toHeader s.archive hp.hsh).isSome then
    (Phase.rejected Code.duplicate 0, s.tree)
  else
    match Org.getChainState proof s hp.prev with
    | none => (Phase.rejected Code.orphan 0, s.tree)
    | some parent =>
      let state := rollForward proof parent hp
      let height := state.height
      if checkpointIsConflict cps hp.hsh height then
        (Phase.rejected Code.checkpointConflict height, s.tree)
      else if checkFn hp ≠ Code.success then
        (Phase.rejected (checkFn hp) height, s.tree)
      else if acceptFn hp state ≠ Code.success then
        (Phase.rejected (acceptFn hp state) height, s.tree)
      else if !(storableHdr cps milestone useWindow now window minWork hp
          state) then
        (Phase.cached height, Org.treeInsert s.tree hp.hsh ⟨hp, state⟩)
      else (Phase.proceed state height, s.tree)

end ChaserHdr

-- ============================================================================
-- Theorems
-- ============================================================================

/-- C10: `put_hashes` with an empty chunk is a no-op on the pool — `maps` is
unchanged and no `download` event is emitted — yet the handler still receives
`success`; a `download` event carrying the chunk's size is emitted exactly when
the restored chunk is non-empty. -/
theorem chaser_check_put_empty_noop (s : ChaserCheck.St) :
    ChaserCheck.doPutHashes s [] = (s, [], Code.success) ∧
    ∀ (x : Nat) (t : List Nat),
      ChaserCheck.doPutHashes s (x :: t) =
        ({ maps := s.maps ++ [x :: t] }, [ChaserCheck.Ev.download (x :: t).length],
          Code.success) := by
  constructor
  · rfl
  · intro x t
    rfl

/-- C7: `get_hashes` pops one chunk from the front of `maps` (and on an empty
pool hands the handler `success` with a zero-size chunk); `put_hashes` appends
a restored (non-empty) chunk to the back; hence restoring a non-empty chunk
into an empty pool and then getting yields exactly that chunk (FIFO). -/
theorem chaser_check_fifo_round_trip :
    (∀ s : ChaserCheck.St, s.maps = [] →
      ChaserCheck.doGetHashes s = (⟨[]⟩, Code.success, [])) ∧
    (∀ (m : ChaserCheck.Chunk) (rest : List ChaserCheck.Chunk),
      ChaserCheck.doGetHashes ⟨m :: rest⟩ = (⟨rest⟩, Code.success, m)) ∧
    (∀ (s : ChaserCheck.St) (m : ChaserCheck.Chunk), m ≠ [] →
      (ChaserCheck.doPutHashes s m).1.maps = s.maps ++ [m]) ∧
    (∀ m : ChaserCheck.Chunk, m ≠ [] →
      (ChaserCheck.doGetHashes (ChaserCheck.doPutHashes ⟨[]⟩ m).1) =
        (⟨[]⟩, Code.success, m)) := by
  refine ⟨?_, ?_, ?_, ?_⟩
  · intro s hs
    simp [ChaserCheck.doGetHashes, ChaserCheck.getMap, hs]
  · intro m rest
    rfl
  · intro s m hm
    simp [ChaserCheck.doPutHashes, hm]
  · intro m hm
    simp [ChaserCheck.doPutHashes, ChaserCheck.doGetHashes, ChaserCheck.getMap, hm]

/-- Witness for C7 at a concrete chunk. -/
theorem chaser_check_fifo_round_trip_witness :
    ([3, 4] : List Nat) ≠ [] ∧
    (ChaserCheck.doGetHashes (ChaserCheck.doPutHashes ⟨[]⟩ [3, 4]).1) =
      (⟨[]⟩, Code.success, [3, 4]) := by
  exact ⟨by decide, chaser_check_fifo_round_trip.2.2.2 [3, 4] (by decide)⟩

/-- Helper: with every bits query succeeding and no 256-bit overflow of the
accumulated sum, the early-exit countdown of `get_is_strong` decides exactly
the strict comparison of the full sum against the branch work. -/
theorem isStrongN_eq_sumN (f : Nat → Option Nat) (proof : Nat → Nat)
    (work point : Nat) :
    ∀ n acc : Nat,
      (∀ k, point < k → k ≤ point + n → (f k).isSome = true) →
      acc + Org.sumN f proof point n < u256 →
      acc < work →
      Org.isStrongN f proof work point acc n =
        some (decide (acc + Org.sumN f proof point n < work)) := by
  intro n
  induction n with
  | zero =>
    intro acc _ _ hacc
    simp [Org.isStrongN, Org.sumN, hacc]
  | succ n ih =>
    intro acc hb hover hacc
    have hk : (f (point + n + 1)).isSome = true :=
      hb (point + n + 1) (by omega) (by omega)
    obtain ⟨b, heq⟩ := Option.isSome_iff_exists.mp hk
    have hsum : Org.sumN f proof point (n + 1) =
        proof b + Org.sumN f proof point n := by
      simp [Org.sumN, heq]
    rw [hsum] at hover ⊢
    have hmod : uadd acc (proof b) = acc + proof b := by
      unfold uadd
      exact Nat.mod_eq_of_lt (by omega)
    by_cases hle : work ≤ acc + proof b
    · have hnot : ¬ (acc + (proof b + Org.sumN f proof point n) < work) := by
        omega
      simp [Org.isStrongN, heq, hmod, hle, hnot]
    · have hlt : acc + proof b < work := by omega
      have hrec := ih (acc + proof b)
        (fun k hk1 hk2 => hb k hk1 (by omega)) (by omega) hlt
      have hrw : acc + (proof b + Org.sumN f proof point n) =
          acc + proof b + Org.sumN f proof point n := by omega
      rw [hrw]
      simp [Org.isStrongN, heq, hmod, hle, hrec]

/-- C9 (amended): provided every per-height bits query over
`(branch_point, top]` succeeds, the branch work is nonzero, and the full
candidate proof sum does not overflow `2 ^ 256`, `get_is_strong`'s early-exit
accumulation computes the same strong/weak answer as fully summing the
candidate proofs over `(branch_point, top]` and testing that sum strictly
less than the branch work.  (With 256-bit wrapping accumulation the two can
otherwise disagree — see the counterexample.) -/
theorem get_is_strong_full_sum (f : Nat → Option Nat) (proof : Nat → Nat)
    (work top point : Nat)
    (hbits : ((List.range' (point + 1) (top - point)).all
      fun k => (f k).isSome) = true)
    (hover : Org.sumN f proof point (top - point) < u256)
    (hpos : 0 < work) :
    Org.getIsStrongGen f proof work top point =
      some (decide (Org.sumN f proof point (top - point) < work)) := by
  have hb : ∀ k, point < k → k ≤ point + (top - point) →
      (f k).isSome = true := by
    intro k h1 h2
    exact List.all_eq_true.mp hbits k
      (List.mem_range'_1.mpr ⟨by omega, by omega⟩)
  simpa [Org.getIsStrongGen] using
    isStrongN_eq_sumN f proof work point (top - point) 0 hb
      (by simpa using hover) hpos

/-- Witness for C9 at concrete data: proofs 1 at heights 1 and 2, branch work
3; the full sum 2 is strictly less, and the walk answers strong. -/
theorem get_is_strong_full_sum_witness :
    (((List.range' (0 + 1) (2 - 0)).all
        fun k => ((fun _ => some 1) k : Option Nat).isSome) = true ∧
      Org.sumN (fun _ => some 1) (fun b => b) 0 (2 - 0) < u256 ∧
      0 < 3 ∧
      Org.getIsStrongGen (fun _ => some 1) (fun b => b) 3 2 0 = some true) := by
  refine ⟨by decide, by decide, by decide, ?_⟩
  have := get_is_strong_full_sum (fun _ => some 1) (fun b => b) 3 2 0
    (by decide) (by decide) (by decide)
  simpa using this

/-- C9 counterexample: with candidate proofs `2 ^ 255` at heights 1 and 2 and
branch work `2 ^ 255 + 2`, every `get_bits` query succeeds, yet the early-exit
accumulation (wrapping modulo `2 ^ 256`) answers strong while the full sum
`2 ^ 256` is not strictly less than the branch work — the two computations
disagree, refuting the claim as stated. -/
theorem get_is_strong_overflow_counterexample :
    Org.getIsStrongGen (fun _ => some (2 ^ 255)) (fun b => b) (2 ^ 255 + 2)
      2 0 = some true ∧
    ¬ (Org.sumN (fun _ => some (2 ^ 255)) (fun b => b) 0 (2 - 0) <
        2 ^ 255 + 2) ∧
    ((List.range' (0 + 1) (2 - 0)).all
      fun k => ((fun _ => some (2 ^ 255)) k : Option Nat).isSome) = true := by
  refine ⟨by decide, by decide, by decide⟩

/-- Helper: popping `n` candidates succeeds whenever the chain has at least
`n` entries. -/
theorem popN_isSome : ∀ (n : Nat) (a : Org.Archive),
    n ≤ a.candidate.length → (Org.popN a n).isSome = true := by
  intro n
  induction n with
  | zero => intro a _; simp [Org.popN]
  | succ n ih =>
    intro a h
    have hne : a.candidate.isEmpty = false := by
      cases hc : a.candidate with
      | nil => rw [hc] at h; simp at h
      | cons x xs => simp
    simp only [Org.popN, Org.popCandidate, hne, Bool.false_eq_true, if_false]
    apply ih
    simp only [List.length_dropLast]
    omega

/-- Helper: filtering one key out of the tree does not change lookups of
other keys. -/
theorem treeFind_filter_ne (t : Org.Tree) (k k' : Nat) (h : k' ≠ k) :
    Org.treeFind (t.filter fun p => !(p.1 == k)) k' = Org.treeFind t k' := by
  induction t with
  | nil => rfl
  | cons p t ih =>
    by_cases h1 : p.1 = k
    · have hf : (!(p.1 == k)) = false := by simp [h1]
      have hk' : (p.1 == k') = false := by
        simp only [beq_eq_false_iff_ne, ne_eq, h1]
        exact fun hh => h hh.symm
      simp only [List.filter_cons, hf, Bool.false_eq_true, if_false]
      rw [ih]
      simp [Org.treeFind, List.find?_cons, hk']
    · have hf : (!(p.1 == k)) = true := by simp [h1]
      simp only [List.filter_cons, hf, if_true]
      by_cases h2 : p.1 = k'
      · simp [Org.treeFind, List.find?_cons, h2]
      · have hk' : (p.1 == k') = false := by simp [h2]
        simp only [Org.treeFind, List.find?_cons, hk']
        exact ih

/-- Helper: promoting a list of distinct, present tree keys into the archive
succeeds. -/
theorem pushTreeKeys_isSome : ∀ (ks : List Nat) (t : Org.Tree)
    (a : Org.Archive),
    (∀ k ∈ ks, (Org.treeFind t k).isSome = true) → ks.Nodup →
    (Org.pushTreeKeys t a ks).isSome = true := by
  intro ks
  induction ks with
  | nil => intro t a _ _; simp [Org.pushTreeKeys]
  | cons k ks ih =>
    intro t a hk hnd
    have h1 : (Org.treeFind t k).isSome = true := hk k (by simp)
    obtain ⟨node, hnode⟩ := Option.isSome_iff_exists.mp h1
    have hex : Org.treeExtract t k =
        some (node, t.filter fun p => !(p.1 == k)) := by
      simp [Org.treeExtract, hnode]
    simp only [Org.pushTreeKeys, hex]
    apply ih
    · intro k' hk'
      have hne : k' ≠ k := by
        intro he
        subst he
        exact (List.nodup_cons.mp hnd).1 hk'
      rw [treeFind_filter_ne _ _ _ hne]
      exact hk k' (by simp [hk'])
    · exact (List.nodup_cons.mp hnd).2

/-- Helper: a key absent from the tree is absent from any filtering of it. -/
theorem treeFind_filter_none (t : Org.Tree) (k : Nat)
    (f : Nat × Org.TreeNode → Bool) (h : Org.treeFind t k = none) :
    Org.treeFind (t.filter f) k = none := by
  unfold Org.treeFind at h ⊢
  have hn : t.find? (fun p => p.1 == k) = none := by
    rcases hft : t.find? (fun p => p.1 == k) with _ | r
    · exact hft
    · rw [hft] at h
      simp at h
  have : (t.filter f).find? (fun p => p.1 == k) = none := by
    apply List.find?_eq_none.mpr
    intro x hx
    exact List.find?_eq_none.mp hn x (List.mem_filter.mp hx).1
  simp [this]

/-- Helper: popping candidates changes neither the header table nor the link
allocator. -/
theorem popN_headers : ∀ (n : Nat) (a a' : Org.Archive),
    Org.popN a n = some a' →
    a'.headers = a.headers ∧ a'.nextLink = a.nextLink := by
  intro n
  induction n with
  | zero =>
    intro a a' h
    simp only [Org.popN, Option.some_inj] at h
    subst h
    exact ⟨rfl, rfl⟩
  | succ n ih =>
    intro a a' h
    simp only [Org.popN, Org.popCandidate] at h
    by_cases he : a.candidate.isEmpty
    · simp [he] at h
    · simp only [he, Bool.false_eq_true, if_false] at h
      obtain ⟨h1, h2⟩ := ih _ _ h
      exact ⟨h1, h2⟩

/-- Helper: pushing candidate links changes neither the header table nor the
link allocator. -/
theorem pushLinks_headers : ∀ (ls : List Nat) (a : Org.Archive),
    (Org.pushLinks a ls).headers = a.headers ∧
    (Org.pushLinks a ls).nextLink = a.nextLink := by
  intro ls
  induction ls with
  | nil => intro a; exact ⟨rfl, rfl⟩
  | cons l ls ih =>
    intro a
    simpa [Org.pushLinks, List.foldl_cons, Org.pushCandidate] using
      ih (Org.pushCandidate a l)

/-- Helper: promoting tree keys into the archive preserves the absence of an
unrelated hash — both from the resulting tree and from the header table —
when the tree is well-formed. -/
theorem pushTreeKeys_preserves_absent (x : Nat) :
    ∀ (ks : List Nat) (t : Org.Tree) (a : Org.Archive) (t' : Org.Tree)
      (a' : Org.Archive),
    Org.treeWF t = true → Org.treeFind t x = none →
    Org.toHeader a x = none →
    Org.pushTreeKeys t a ks = some (t', a') →
    Org.treeFind t' x = none ∧ Org.toHeader a' x = none := by
  intro ks
  induction ks with
  | nil =>
    intro t a t' a' _ h2 h3 h4
    simp only [Org.pushTreeKeys, Option.some_inj] at h4
    have e1 : t = t' := congrArg Prod.fst h4
    have e2 : a = a' := congrArg Prod.snd h4
    exact ⟨e1 ▸ h2, e2 ▸ h3⟩
  | cons k ks ih =>
    intro t a t' a' hwf h2 h3 h4
    simp only [Org.pushTreeKeys] at h4
    rcases htk : Org.treeFind t k with _ | node
    · rw [Org.treeExtract, htk] at h4
      simp at h4
    · rw [Org.treeExtract, htk] at h4
      -- facts about the found entry
      have hfq : ∃ q, t.find? (fun p => p.1 == k) = some q ∧ q.2 = node := by
        unfold Org.treeFind at htk
        rcases hft : t.find? (fun p => p.1 == k) with _ | q
        · rw [hft] at htk; simp at htk
        · rw [hft] at htk
          simp at htk
          exact ⟨q, hft, htk⟩
      obtain ⟨q, hq1, hq2⟩ := hfq
      have hqk : (q.1 == k) = true := by
        simpa using List.find?_some hq1
      have hqmem : q ∈ t := List.mem_of_find?_eq_some hq1
      have hkx : k ≠ x := by
        intro he
        subst he
        have hnone : t.find? (fun p => p.1 == k) = none := by
          unfold Org.treeFind at h2
          rcases hft : t.find? (fun p => p.1 == k) with _ | r
          · exact hft
          · rw [hft] at h2; simp at h2
        rw [hq1] at hnone
        exact absurd hnone (by simp)
      have hnodehsh : node.header.hsh = k := by
        have := List.all_eq_true.mp hwf q hqmem
        have h1 : q.2.header.hsh = q.1 := by simpa using this
        have h2' : q.1 = k := by simpa using hqk
        rw [hq2] at h1
        omega
      -- step preconditions
      have hwf' : Org.treeWF (t.filter fun p => !(p.1 == k)) = true := by
        apply List.all_eq_true.mpr
        intro p hp
        exact List.all_eq_true.mp hwf p (List.mem_filter.mp hp).1
      have h2' : Org.treeFind (t.filter fun p => !(p.1 == k)) x = none :=
        treeFind_filter_none t x _ h2
      have h3' : Org.toHeader
          (Org.pushCandidate
            (Org.setLink a node.header node.state.height).2
            (Org.setLink a node.header node.state.height).1) x = none := by
        rcases hsl : Org.toHeader a node.header.hsh with _ | l0
        · -- fresh insertion under the node's hash (≠ x)
          unfold Org.toHeader Org.setLink
          rw [hsl]
          simp only [Org.pushCandidate, List.find?_cons]
          have hne : (node.header.hsh == x) = false := by
            simp [hnodehsh, hkx]
          simp only [hne]
          have hfh : a.headers.find? (fun p => p.2.header.hsh == x) =
              none := by
            unfold Org.toHeader at h3
            rcases hft : a.headers.find? (fun p => p.2.header.hsh == x)
              with _ | r
            · exact hft
            · rw [hft] at h3; simp at h3
          simp [hfh]
        · -- already archived: archive unchanged
          unfold Org.toHeader Org.setLink
          rw [hsl]
          simp only [Org.pushCandidate]
          unfold Org.toHeader at h3
          exact h3
      exact ih _ _ _ _ hwf' h2' h3' h4

/-- C5: admitting the same header twice through the organizer when the first
admission succeeds: the second admission's handler receives `duplicate` with
the stored height (the height reported by the first admission), and the
second admission leaves the organizer's tree and the whole archive — the
candidate chain included — exactly as they were after the first. -/
theorem organize_duplicate_idempotent (proof : Nat → Nat)
    (validate : Header → ChainState → Code)
    (isStorable : Header → ChainState → Bool) (cps : List Checkpoint)
    (s : Org.OrgState) (hp : Header)
    (hwf : Org.treeWF s.tree = true)
    (hcl : s.closed = false)
    (hsucc : (Org.doOrganize proof validate isStorable cps s hp).code =
      Code.success) :
    Org.doOrganize proof validate isStorable cps
        (Org.doOrganize proof validate isStorable cps s hp).st hp =
      ⟨Code.duplicate,
        (Org.doOrganize proof validate isStorable cps s hp).height,
        (Org.doOrganize proof validate isStorable cps s hp).st,
        Org.OrgAction.rejected⟩ := by
  rcases ht : Org.treeFind s.tree hp.hsh with _ | node
  swap
  · simp [Org.doOrganize, hcl, ht] at hsucc
  rcases hth : Org.toHeader s.archive hp.hsh with _ | l
  swap
  · rcases hgh : Org.getHeight s.archive l with _ | hh
    · simp [Org.doOrganize, hcl, ht, hth, hgh] at hsucc
    · by_cases hec : (Org.getHeaderState s.archive l).getD Code.unassociated =
          Code.blockUnconfirmable
      · simp [Org.doOrganize, hcl, ht, hth, hgh, hec] at hsucc
      · simp [Org.doOrganize, hcl, ht, hth, hgh, hec] at hsucc
  rcases hcs : Org.getChainState proof s hp.prev with _ | parent
  · simp [Org.doOrganize, hcl, ht, hth, hcs] at hsucc
  by_cases hcf : checkpointIsConflict cps hp.hsh
      (rollForward proof parent hp).height = true
  · simp [Org.doOrganize, hcl, ht, hth, hcs, hcf] at hsucc
  by_cases hv : validate hp (rollForward proof parent hp) = Code.success
  swap
  · simp [Org.doOrganize, hcl, ht, hth, hcs, hcf, hv] at hsucc
  by_cases hsb : isStorable hp (rollForward proof parent hp) = true
  swap
  · -- storability gate caches the entry; the duplicate is found in the tree
    have hsb' : isStorable hp (rollForward proof parent hp) = false := by
      simpa using hsb
    have heq : Org.doOrganize proof validate isStorable cps s hp =
        ⟨Code.success, (rollForward proof parent hp).height,
          ⟨Org.treeInsert s.tree hp.hsh ⟨hp, rollForward proof parent hp⟩,
            s.topState, s.archive, s.closed⟩,
          Org.OrgAction.cached⟩ := by
      simp [Org.doOrganize, hcl, ht, hth, hcs, hcf, hv, hsb']
    rw [heq]
    simp [Org.doOrganize, Org.treeInsert, Org.treeFind, hcl]
  rcases hbw : Org.getBranchWork proof s.tree s.archive hp
    with _ | ⟨work, point, tb, sb⟩
  · simp [Org.doOrganize, hcl, ht, hth, hcs, hcf, hv, hsb, hbw] at hsucc
  rcases his : Org.getIsStrong proof s.archive work point with _ | b
  · simp [Org.doOrganize, Org.organizeStrongPhase, hcl, ht, hth, hcs, hcf,
      hv, hsb, hbw, his] at hsucc
  cases b
  · -- weak branch caches the entry; the duplicate is found in the tree
    have heq : Org.doOrganize proof validate isStorable cps s hp =
        ⟨Code.success, (rollForward proof parent hp).height,
          ⟨Org.treeInsert s.tree hp.hsh ⟨hp, rollForward proof parent hp⟩,
            s.topState, s.archive, s.closed⟩,
          Org.OrgAction.cached⟩ := by
      simp [Org.doOrganize, Org.organizeStrongPhase, hcl, ht, hth, hcs,
        hcf, hv, hsb, hbw, his]
    rw [heq]
    simp [Org.doOrganize, Org.treeInsert, Org.treeFind, hcl]
  by_cases htp : s.topState.height < point
  · simp [Org.doOrganize, Org.organizeStrongPhase, hcl, ht, hth, hcs, hcf,
      hv, hsb, hbw, his, htp] at hsucc
  rcases hpn : Org.popN s.archive (s.topState.height - point) with _ | a1
  · simp [Org.doOrganize, Org.organizeStrongPhase, hcl, ht, hth, hcs,
      hcf, hv, hsb, hbw, his, htp, hpn] at hsucc
  rcases hpt : Org.pushTreeKeys s.tree (Org.pushLinks a1 sb.reverse)
    tb.reverse with _ | ⟨t', a3⟩
  · simp [Org.doOrganize, Org.organizeStrongPhase, hcl, ht, hth, hcs,
      hcf, hv, hsb, hbw, his, htp, hpn, hpt] at hsucc
  -- the reorganization path archives the entry; the duplicate is found
  -- in the archive with its stored height
  have hh1 := popN_headers _ _ _ hpn
  have hh2 := pushLinks_headers sb.reverse a1
  have hth1 : Org.toHeader (Org.pushLinks a1 sb.reverse) hp.hsh = none := by
    unfold Org.toHeader
    rw [hh2.1, hh1.1]
    unfold Org.toHeader at hth
    exact hth
  have habs := pushTreeKeys_preserves_absent hp.hsh tb.reverse s.tree
    (Org.pushLinks a1 sb.reverse) t' a3 hwf ht hth1 hpt
  have hsl : Org.setLink a3 hp (rollForward proof parent hp).height =
      (a3.nextLink,
        ⟨(a3.nextLink,
          ⟨hp, (rollForward proof parent hp).height,
            Code.unassociated⟩) :: a3.headers,
          a3.nextLink + 1, a3.candidate⟩) := by
    unfold Org.setLink
    rw [habs.2]
  have heq : Org.doOrganize proof validate isStorable cps s hp =
      ⟨Code.success, (rollForward proof parent hp).height,
        ⟨t', rollForward proof parent hp,
          Org.pushCandidate
            ⟨(a3.nextLink,
              ⟨hp, (rollForward proof parent hp).height,
                Code.unassociated⟩) :: a3.headers,
              a3.nextLink + 1, a3.candidate⟩ a3.nextLink,
          s.closed⟩,
        Org.OrgAction.reorganized⟩ := by
    simp [Org.doOrganize, Org.organizeStrongPhase, hcl, ht, hth, hcs,
      hcf, hv, hsb, hbw, his, htp, hpn, hpt, hsl]
  rw [heq]
  simp [Org.doOrganize, hcl, habs.1, Org.toHeader, Org.pushCandidate,
    List.find?_cons, Org.getHeight, Org.lookupLink, Org.getHeaderState]

/-- Witness for C5 at a concrete admission (cached path): the first call
succeeds, the second returns `duplicate` with the stored height and leaves
the state untouched. -/
theorem organize_duplicate_idempotent_witness :
    (Org.treeWF ([] : Org.Tree) = true ∧
      (Org.doOrganize (fun b => b) (fun _ _ => Code.success)
        (fun _ _ => false) []
        ⟨[], ⟨0, 100, 0⟩,
          ⟨[(0, ⟨⟨100, 99, 3, 0⟩, 0, Code.unassociated⟩)], 1, [0]⟩, false⟩
        ⟨101, 100, 2, 0⟩).code = Code.success ∧
      Org.doOrganize (fun b => b) (fun _ _ => Code.success)
        (fun _ _ => false) []
        (Org.doOrganize (fun b => b) (fun _ _ => Code.success)
          (fun _ _ => false) []
          ⟨[], ⟨0, 100, 0⟩,
            ⟨[(0, ⟨⟨100, 99, 3, 0⟩, 0, Code.unassociated⟩)], 1, [0]⟩, false⟩
          ⟨101, 100, 2, 0⟩).st ⟨101, 100, 2, 0⟩ =
      ⟨Code.duplicate,
        (Org.doOrganize (fun b => b) (fun _ _ => Code.success)
          (fun _ _ => false) []
          ⟨[], ⟨0, 100, 0⟩,
            ⟨[(0, ⟨⟨100, 99, 3, 0⟩, 0, Code.unassociated⟩)], 1, [0]⟩, false⟩
          ⟨101, 100, 2, 0⟩).height,
        (Org.doOrganize (fun b => b) (fun _ _ => Code.success)
          (fun _ _ => false) []
          ⟨[], ⟨0, 100, 0⟩,
            ⟨[(0, ⟨⟨100, 99, 3, 0⟩, 0, Code.unassociated⟩)], 1, [0]⟩, false⟩
          ⟨101, 100, 2, 0⟩).st,
        Org.OrgAction.rejected⟩) := by
  refine ⟨by decide, by decide, ?_⟩
  exact organize_duplicate_idempotent (fun b => b) (fun _ _ => Code.success)
    (fun _ _ => false) []
    ⟨[], ⟨0, 100, 0⟩,
      ⟨[(0, ⟨⟨100, 99, 3, 0⟩, 0, Code.unassociated⟩)], 1, [0]⟩, false⟩
    ⟨101, 100, 2, 0⟩ (by decide) (by decide) (by decide)

/-- C1 (amended): for an organize admission that reaches the strong-branch
test (all prior gates passed, branch work computed as `work` at branch point
`point`), provided every candidate bits query above the branch point
succeeds, `work` is nonzero, the full candidate proof sum does not overflow
`2 ^ 256`, `state_` agrees with a contiguous candidate chain, and the tree
branch keys are distinct and present: the candidate chain is reorganized iff
the summed candidate proof strictly above the branch point is strictly less
than the branch work including the new entry; when the two sums are equal the
branch is weak — the entry is cached in the tree and the handler receives
`success` with the entry's height. -/
theorem organize_strong_branch_test (proof : Nat → Nat)
    (validate : Header → ChainState → Code)
    (isStorable : Header → ChainState → Bool) (cps : List Checkpoint)
    (s : Org.OrgState) (hp : Header) (parent : ChainState)
    (work point : Nat) (treeBranch storeBranch : List Nat)
    (h0 : s.closed = false)
    (h1 : Org.treeFind s.tree hp.hsh = none)
    (h2 : Org.toHeader s.archive hp.hsh = none)
    (h3 : Org.getChainState proof s hp.prev = some parent)
    (h4 : checkpointIsConflict cps hp.hsh
      (rollForward proof parent hp).height = false)
    (h5 : validate hp (rollForward proof parent hp) = Code.success)
    (h6 : isStorable hp (rollForward proof parent hp) = true)
    (h7 : Org.getBranchWork proof s.tree s.archive hp =
      some (work, point, treeBranch, storeBranch))
    (hbits : ((List.range' (point + 1)
      (Org.topCandidate s.archive - point)).all
      fun k => (Org.getBitsAt s.archive k).isSome) = true)
    (hover : Org.sumN (Org.getBitsAt s.archive) proof point
      (Org.topCandidate s.archive - point) < u256)
    (hpos : 0 < work)
    (htop : point ≤ s.topState.height)
    (hlen : s.topState.height + 1 ≤ s.archive.candidate.length)
    (htree : (treeBranch.all fun k => (Org.treeFind s.tree k).isSome) = true)
    (hnd : treeBranch.Nodup) :
    ((Org.doOrganize proof validate isStorable cps s hp).action =
        Org.OrgAction.reorganized ↔
      Org.sumN (Org.getBitsAt s.archive) proof point
        (Org.topCandidate s.archive - point) < work) ∧
    (Org.sumN (Org.getBitsAt s.archive) proof point
        (Org.topCandidate s.archive - point) = work →
      Org.doOrganize proof validate isStorable cps s hp =
        ⟨Code.success, (rollForward proof parent hp).height,
          ⟨Org.treeInsert s.tree hp.hsh ⟨hp, rollForward proof parent hp⟩,
            s.topState, s.archive, s.closed⟩,
          Org.OrgAction.cached⟩) := by
  have hbp : ∀ k, point < k →
      k ≤ point + (Org.topCandidate s.archive - point) →
      (Org.getBitsAt s.archive k).isSome = true := by
    intro k hk1 hk2
    exact List.all_eq_true.mp hbits k
      (List.mem_range'_1.mpr ⟨by omega, by omega⟩)
  have hstrong : Org.getIsStrong proof s.archive work point =
      some (decide (Org.sumN (Org.getBitsAt s.archive) proof point
        (Org.topCandidate s.archive - point) < work)) := by
    unfold Org.getIsStrong Org.getIsStrongGen
    simpa using isStrongN_eq_sumN (Org.getBitsAt s.archive) proof work point
      (Org.topCandidate s.archive - point) 0 hbp (by simpa using hover) hpos
  have hred : Org.doOrganize proof validate isStorable cps s hp =
      Org.organizeStrongPhase proof s hp (rollForward proof parent hp) work
        point treeBranch storeBranch := by
    simp [Org.doOrganize, h0, h1, h2, h3, h4, h5, h6, h7]
  rw [hred]
  have hnotlt : ¬ (s.topState.height < point) := by omega
  by_cases hlt : Org.sumN (Org.getBitsAt s.archive) proof point
      (Org.topCandidate s.archive - point) < work
  · have hpop : (Org.popN s.archive (s.topState.height - point)).isSome =
        true := popN_isSome _ _ (by omega)
    obtain ⟨a1, ha1⟩ := Option.isSome_iff_exists.mp hpop
    have hpush : (Org.pushTreeKeys s.tree
        (Org.pushLinks a1 storeBranch.reverse)
        treeBranch.reverse).isSome = true := by
      apply pushTreeKeys_isSome
      · intro k hk
        exact List.all_eq_true.mp htree k (List.mem_reverse.mp hk)
      · exact List.nodup_reverse.mpr hnd
    obtain ⟨ta, hta⟩ := Option.isSome_iff_exists.mp hpush
    refine ⟨⟨fun _ => hlt, fun _ => ?_⟩, fun heqw => absurd hlt (by omega)⟩
    simp [Org.organizeStrongPhase, hstrong, hlt, hnotlt, ha1, hta]
  · have hdec : decide (Org.sumN (Org.getBitsAt s.archive) proof point
        (Org.topCandidate s.archive - point) < work) = false := by
      simpa using hlt
    refine ⟨⟨fun hact => ?_, fun hh => absurd hh hlt⟩, fun _ => ?_⟩
    · rw [Org.organizeStrongPhase, hstrong, hdec] at hact
      simp at hact
    · rw [Org.organizeStrongPhase, hstrong, hdec]

/-- Witness for C1 at concrete data with the candidate sum equal to the
branch work: the branch is weak, the entry is cached, and the handler gets
`success` with the entry's height. -/
theorem organize_strong_branch_test_witness :
    (Org.sumN (Org.getBitsAt
        ⟨[(0, ⟨⟨100, 99, 3, 0⟩, 0, Code.unassociated⟩),
          (1, ⟨⟨102, 100, 4, 0⟩, 1, Code.unassociated⟩)], 2, [0, 1]⟩)
      (fun b => b) 0
      (Org.topCandidate
        ⟨[(0, ⟨⟨100, 99, 3, 0⟩, 0, Code.unassociated⟩),
          (1, ⟨⟨102, 100, 4, 0⟩, 1, Code.unassociated⟩)], 2, [0, 1]⟩ - 0) =
      4 ∧
    Org.doOrganize (fun b => b) (fun _ _ => Code.success)
      (fun _ _ => true) []
      ⟨[], ⟨1, 102, 7⟩,
        ⟨[(0, ⟨⟨100, 99, 3, 0⟩, 0, Code.unassociated⟩),
          (1, ⟨⟨102, 100, 4, 0⟩, 1, Code.unassociated⟩)], 2, [0, 1]⟩,
        false⟩
      ⟨101, 100, 4, 0⟩ =
      ⟨Code.success, 1,
        ⟨[(101, ⟨⟨101, 100, 4, 0⟩, ⟨1, 101, 7⟩⟩)], ⟨1, 102, 7⟩,
          ⟨[(0, ⟨⟨100, 99, 3, 0⟩, 0, Code.unassociated⟩),
            (1, ⟨⟨102, 100, 4, 0⟩, 1, Code.unassociated⟩)], 2, [0, 1]⟩,
          false⟩,
        Org.OrgAction.cached⟩) := by
  refine ⟨by decide, ?_⟩
  have := (organize_strong_branch_test (fun b => b) (fun _ _ => Code.success)
    (fun _ _ => true) []
    ⟨[], ⟨1, 102, 7⟩,
      ⟨[(0, ⟨⟨100, 99, 3, 0⟩, 0, Code.unassociated⟩),
        (1, ⟨⟨102, 100, 4, 0⟩, 1, Code.unassociated⟩)], 2, [0, 1]⟩,
      false⟩
    ⟨101, 100, 4, 0⟩ ⟨0, 100, 3⟩ 4 0 [] []
    (by decide) (by decide) (by decide) (by decide) (by decide) (by decide)
    (by decide) (by decide) (by decide) (by decide) (by decide) (by decide)
    (by decide) (by decide) (by decide)).2 (by decide)
  exact this.trans (by decide)

/-- C1 counterexample: with candidate proofs `2 ^ 255` at the two heights
above the branch point and branch work `2 ^ 255 + 2`, the wrapped walk never
reaches the branch work, so the admission reorganizes the candidate chain —
although the summed candidate proof above the branch point (`2 ^ 256`) is not
strictly less than the branch work, contradicting the claimed iff. -/
theorem organize_strong_branch_counterexample :
    Org.getBranchWork (fun b => b) []
      ⟨[(0, ⟨⟨100, 99, 7, 0⟩, 0, Code.unassociated⟩),
        (1, ⟨⟨201, 100, 2 ^ 255, 0⟩, 1, Code.unassociated⟩),
        (2, ⟨⟨202, 201, 2 ^ 255, 0⟩, 2, Code.unassociated⟩)], 3, [0, 1, 2]⟩
      ⟨5, 100, 2 ^ 255 + 2, 0⟩ = some (2 ^ 255 + 2, 0, [], []) ∧
    (Org.doOrganize (fun b => b) (fun _ _ => Code.success) (fun _ _ => true)
      []
      ⟨[], ⟨2, 202, 0⟩,
        ⟨[(0, ⟨⟨100, 99, 7, 0⟩, 0, Code.unassociated⟩),
          (1, ⟨⟨201, 100, 2 ^ 255, 0⟩, 1, Code.unassociated⟩),
          (2, ⟨⟨202, 201, 2 ^ 255, 0⟩, 2, Code.unassociated⟩)], 3,
          [0, 1, 2]⟩,
        false⟩
      ⟨5, 100, 2 ^ 255 + 2, 0⟩).action = Org.OrgAction.reorganized ∧
    ¬ (Org.sumN (Org.getBitsAt
        ⟨[(0, ⟨⟨100, 99, 7, 0⟩, 0, Code.unassociated⟩),
          (1, ⟨⟨201, 100, 2 ^ 255, 0⟩, 1, Code.unassociated⟩),
          (2, ⟨⟨202, 201, 2 ^ 255, 0⟩, 2, Code.unassociated⟩)], 3,
          [0, 1, 2]⟩)
      (fun b => b) 0 2 < 2 ^ 255 + 2) := by
  refine ⟨by decide, by decide, by decide⟩

/-- C6 (amended): past the duplicate/orphan/checkpoint/check/accept gates,
`chaser_header::do_organize` proceeds to the branch-work/store phase iff the
entry's height is a checkpoint height, or the entry equals the milestone, or
it is current within the currency window with cumulative work at least
`minimum_work`; a checkpointed entry proceeds regardless of its work; an
entry that is not storable is cached into the tree with the handler receiving
`success` at the entry's height. -/
theorem chaser_header_storability_gate (proof : Nat → Nat)
    (checkFn : Header → Code) (acceptFn : Header → ChainState → Code)
    (cps : List Checkpoint) (milestone : Checkpoint) (useWindow : Bool)
    (now window minWork : Nat) (s : Org.OrgState) (hp : Header)
    (parent : ChainState)
    (h0 : s.closed = false)
    (h1 : Org.treeFind s.tree hp.hsh = none)
    (h2 : Org.toHeader s.archive hp.hsh = none)
    (h3 : Org.getChainState proof s hp.prev = some parent)
    (h4 : checkpointIsConflict cps hp.hsh
      (rollForward proof parent hp).height = false)
    (h5 : checkFn hp = Code.success)
    (h6 : acceptFn hp (rollForward proof parent hp) = Code.success) :
    ((ChaserHdr.doOrganizeHdr proof checkFn acceptFn cps milestone useWindow
        now window minWork s hp).1 =
      ChaserHdr.Phase.proceed (rollForward proof parent hp)
        (rollForward proof parent hp).height ↔
      ChaserHdr.storableHdr cps milestone useWindow now window minWork hp
        (rollForward proof parent hp) = true) ∧
    (ChaserHdr.storableHdr cps milestone useWindow now window minWork hp
        (rollForward proof parent hp) = false →
      ChaserHdr.doOrganizeHdr proof checkFn acceptFn cps milestone useWindow
        now window minWork s hp =
        (ChaserHdr.Phase.cached (rollForward proof parent hp).height,
          Org.treeInsert s.tree hp.hsh ⟨hp, rollForward proof parent hp⟩)) ∧
    (checkpointIsAt cps (rollForward proof parent hp).height = true →
      (ChaserHdr.doOrganizeHdr proof checkFn acceptFn cps milestone useWindow
        now window minWork s hp).1 =
      ChaserHdr.Phase.proceed (rollForward proof parent hp)
        (rollForward proof parent hp).height) := by
  by_cases hstor : ChaserHdr.storableHdr cps milestone useWindow now window
      minWork hp (rollForward proof parent hp) = true
  · refine ⟨⟨fun _ => hstor, fun _ => ?_⟩, fun hcon => ?_, fun _ => ?_⟩ <;>
      simp_all [ChaserHdr.doOrganizeHdr, h0, h1, h2, h3, h4, h5, h6, hstor]
  · have hstor' : ChaserHdr.storableHdr cps milestone useWindow now window
        minWork hp (rollForward proof parent hp) = false := by
      simpa using hstor
    refine ⟨⟨fun hpr => ?_, fun hst => absurd hst hstor⟩, fun _ => ?_,
      fun hat => ?_⟩
    · simp_all [ChaserHdr.doOrganizeHdr, h0, h1, h2, h3, h4, h5, h6, hstor']
    · simp_all [ChaserHdr.doOrganizeHdr, h0, h1, h2, h3, h4, h5, h6, hstor']
    · exact absurd hstor' (by
        simp [ChaserHdr.storableHdr, hat])

/-- Witness for C6: a header at a checkpoint height whose cumulative work is
far below `minimum_work` (and which is not current) still proceeds to the
store phase. -/
theorem chaser_header_storability_gate_witness :
    ((⟨[], ⟨0, 100, 0⟩,
        ⟨[(0, ⟨⟨100, 99, 3, 0⟩, 0, Code.unassociated⟩)], 1, [0]⟩,
        false⟩ : Org.OrgState).closed = false ∧
      checkpointIsAt [⟨101, 1⟩] 1 = true ∧
      (ChaserHdr.doOrganizeHdr (fun b => b) (fun _ => Code.success)
        (fun _ _ => Code.success) [⟨101, 1⟩] ⟨999, 50⟩ true
        1000000000 100 1000000
        ⟨[], ⟨0, 100, 0⟩,
          ⟨[(0, ⟨⟨100, 99, 3, 0⟩, 0, Code.unassociated⟩)], 1, [0]⟩,
          false⟩
        ⟨101, 100, 2, 0⟩).1 = ChaserHdr.Phase.proceed ⟨1, 101, 2⟩ 1) := by
  refine ⟨by decide, by decide, ?_⟩
  have := (chaser_header_storability_gate (fun b => b) (fun _ => Code.success)
    (fun _ _ => Code.success) [⟨101, 1⟩] ⟨999, 50⟩ true
    1000000000 100 1000000
    ⟨[], ⟨0, 100, 0⟩,
      ⟨[(0, ⟨⟨100, 99, 3, 0⟩, 0, Code.unassociated⟩)], 1, [0]⟩,
      false⟩
    ⟨101, 100, 2, 0⟩ ⟨0, 100, 0⟩
    (by decide) (by decide) (by decide) (by decide) (by decide) (by decide)
    (by decide)).2.2 (by decide)
  simpa [rollForward, uadd, u256] using this

/-- C6 counterexample: a header strictly below a checkpoint height (height 1,
checkpoint at height 100) that is neither at a checkpoint nor the milestone,
not current, and of insufficient work, is cached — not stored — although the
claim's "at/below a checkpoint" condition holds of it. -/
theorem chaser_header_storability_counterexample :
    (ChaserHdr.doOrganizeHdr (fun b => b) (fun _ => Code.success)
      (fun _ _ => Code.success) [⟨500, 100⟩] ⟨999, 50⟩ true
      1000000000 100 1000000
      ⟨[], ⟨0, 100, 0⟩,
        ⟨[(0, ⟨⟨100, 99, 3, 0⟩, 0, Code.unassociated⟩)], 1, [0]⟩,
        false⟩
      ⟨101, 100, 2, 0⟩).1 = ChaserHdr.Phase.cached 1 ∧
    ChaserHdr.specStorableHdr [⟨500, 100⟩] ⟨999, 50⟩ true
      1000000000 100 1000000 ⟨101, 100, 2, 0⟩ ⟨1, 101, 2⟩ = true := by
  refine ⟨by decide, by decide⟩

/-- Helper for C8: a fully valid batch is organized in order with the
rolled-forward states and does not stop the channel. -/
theorem headerIn_goodRun_all_organized (proof : Nat → Nat)
    (checkH : Header → Code) (acceptH : Header → ChainState → Code)
    (cps : List Checkpoint) (st : ChainState) (hs : List Header)
    (hg : HeaderIn.goodRun proof checkH acceptH cps st hs = true) :
    HeaderIn.handleHeaders proof checkH acceptH cps st hs =
      { organized := HeaderIn.rollStates proof st hs, stop := none,
        final := HeaderIn.rollAll proof st hs } := by
  induction hs generalizing st with
  | nil => simp [HeaderIn.handleHeaders, HeaderIn.rollStates, HeaderIn.rollAll]
  | cons p t ih =>
    simp only [HeaderIn.goodRun, Bool.and_eq_true, decide_eq_true_eq,
      Bool.not_eq_true'] at hg
    obtain ⟨⟨⟨h1, h2⟩, h3⟩, h4, h5⟩ := hg
    simp [HeaderIn.handleHeaders, HeaderIn.rollStates, HeaderIn.rollAll,
      h1, h2, h3, h4, ih _ h5]

/-- C8: in `handle_receive_headers`, headers are processed in message order:
a header whose `previous_hash` differs from the rolling state's hash stops the
channel with `protocol_violation` and no later header of the message is handed
to `organize`; every header that passes the continuity, `check`,
checkpoint-conflict and `accept` gates is handed to `organize` with the
rolled-forward state, in order. -/
theorem headerIn_order_and_violation (proof : Nat → Nat)
    (checkH : Header → Code) (acceptH : Header → ChainState → Code)
    (cps : List Checkpoint) :
    (∀ (st : ChainState) (pre : List Header) (h : Header)
        (rest : List Header),
      HeaderIn.goodRun proof checkH acceptH cps st pre = true →
      h.prev ≠ (HeaderIn.rollAll proof st pre).hsh →
      HeaderIn.handleHeaders proof checkH acceptH cps st (pre ++ h :: rest) =
        { organized := HeaderIn.rollStates proof st pre,
          stop := some Code.protocolViolation,
          final := HeaderIn.rollAll proof st pre }) ∧
    (∀ (st : ChainState) (hs : List Header),
      HeaderIn.goodRun proof checkH acceptH cps st hs = true →
      HeaderIn.handleHeaders proof checkH acceptH cps st hs =
        { organized := HeaderIn.rollStates proof st hs, stop := none,
          final := HeaderIn.rollAll proof st hs }) := by
  constructor
  · intro st pre h rest hg hne
    induction pre generalizing st with
    | nil =>
      simp only [HeaderIn.rollAll] at hne
      simp [HeaderIn.handleHeaders, HeaderIn.rollStates, HeaderIn.rollAll, hne]
    | cons p t ih =>
      simp only [HeaderIn.goodRun, Bool.and_eq_true, decide_eq_true_eq,
        Bool.not_eq_true'] at hg
      obtain ⟨⟨⟨h1, h2⟩, h3⟩, h4, h5⟩ := hg
      simp only [HeaderIn.rollAll] at hne
      simp [HeaderIn.handleHeaders, HeaderIn.rollStates, HeaderIn.rollAll,
        h1, h2, h3, h4, ih _ h5 hne]
  · exact headerIn_goodRun_all_organized proof checkH acceptH cps

/-- Witness for C8: a valid first header is organized with its rolled state;
the second header's previous-hash mismatch stops the channel and the third
header is never organized. -/
theorem headerIn_order_and_violation_witness :
    (HeaderIn.goodRun (fun b => b) (fun _ => Code.success)
        (fun _ _ => Code.success) [] { height := 0, hsh := 5, work := 0 }
        [{ hsh := 6, prev := 5, bits := 1, timestamp := 0 }] = true ∧
      ({ hsh := 9, prev := 77, bits := 1, timestamp := 0 } : Header).prev ≠
        (HeaderIn.rollAll (fun b => b) { height := 0, hsh := 5, work := 0 }
          [{ hsh := 6, prev := 5, bits := 1, timestamp := 0 }]).hsh ∧
      HeaderIn.handleHeaders (fun b => b) (fun _ => Code.success)
        (fun _ _ => Code.success) [] { height := 0, hsh := 5, work := 0 }
        ([{ hsh := 6, prev := 5, bits := 1, timestamp := 0 }] ++
          [{ hsh := 9, prev := 77, bits := 1, timestamp := 0 },
           { hsh := 10, prev := 9, bits := 1, timestamp := 0 }]) =
        { organized := [({ hsh := 6, prev := 5, bits := 1, timestamp := 0 },
            { height := 1, hsh := 6, work := 1 })],
          stop := some Code.protocolViolation,
          final := { height := 1, hsh := 6, work := 1 } }) := by
  refine ⟨by decide, by decide, ?_⟩
  have := (headerIn_order_and_violation (fun b => b) (fun _ => Code.success)
    (fun _ _ => Code.success) []).1 { height := 0, hsh := 5, work := 0 }
    [{ hsh := 6, prev := 5, bits := 1, timestamp := 0 }]
    { hsh := 9, prev := 77, bits := 1, timestamp := 0 }
    [{ hsh := 10, prev := 9, bits := 1, timestamp := 0 }]
    (by decide) (by decide)
  simpa [HeaderIn.rollStates, HeaderIn.rollAll, rollForward, uadd, u256] using
    this

/-- C2 (amended): in the drain loop of `do_bump`, at a height whose candidate
link exists and is associated, a `success` validation sets `txs_connected` and
`block_preconfirmable` on that link in the archive, increments `validated` and
emits `preconfirmable(height)` before continuing at the next height; a
positive cached validation result (`validation_bypass`, `block_confirmable` or
`block_preconfirmable`) also increments `validated`, emits
`preconfirmable(height)` and continues — but leaves the archive unchanged. -/
theorem preconfirm_bump_advance (o : Preconfirm.VOracle) (cand : List Nat)
    (s : Preconfirm.PSt) (height link : Nat)
    (hc : cand[height]? = some link)
    (ha : s.arch.assoc.contains link = true)
    (hcl : s.closed = false) :
    (Preconfirm.validateLk o s.arch link height = Code.success →
      Preconfirm.bumpFrom o cand height s =
        Preconfirm.bumpFrom o cand (height + 1)
          { s with validated := s.validated + 1,
                   arch := Preconfirm.markPreconf
                     (Preconfirm.markTxsConn s.arch link) link,
                   events := s.events ++
                     [Preconfirm.PEv.preconfirmable Code.success height] }) ∧
    (∀ c, Preconfirm.validateLk o s.arch link height = c →
      c = Code.validationBypass ∨ c = Code.blockConfirmable ∨
        c = Code.blockPreconfirmable →
      Preconfirm.bumpFrom o cand height s =
        Preconfirm.bumpFrom o cand (height + 1)
          { s with validated := s.validated + 1,
                   events := s.events ++
                     [Preconfirm.PEv.preconfirmable c height] }) := by
  have hlt : height < cand.length := (List.getElem?_eq_some.mp hc).1
  have hfuel : cand.length - height = (cand.length - (height + 1)) + 1 := by
    omega
  have ha' : link ∈ s.arch.assoc := by simpa using ha
  constructor
  · intro hv
    unfold Preconfirm.bumpFrom
    rw [hfuel]
    simp [Preconfirm.bumpGo, hc, ha', hcl, hv]
  · intro c hv hcases
    rcases hcases with h | h | h <;> subst h <;>
      (unfold Preconfirm.bumpFrom; rw [hfuel];
       simp [Preconfirm.bumpGo, hc, ha', hcl, hv])

/-- Witness for C2 at a concrete state: a success validation commits both
marks and advances; a cached `block_confirmable` advances without marking. -/
theorem preconfirm_bump_advance_witness :
    (([10, 11] : List Nat)[1]? = some 11 ∧
      Preconfirm.validateLk
        { bypass := fun _ => false, getBlock := fun _ => some 1,
          getCtx := fun _ => some 0, populate := fun _ => true,
          accept := fun _ _ => Code.success,
          connect := fun _ _ => Code.success }
        { assoc := [11], mall := [], confirmableMarks := [],
          preconfMarks := [], unconfMarks := [], txsConn := [] } 11 1 =
        Code.success ∧
      Preconfirm.bumpFrom
        { bypass := fun _ => false, getBlock := fun _ => some 1,
          getCtx := fun _ => some 0, populate := fun _ => true,
          accept := fun _ _ => Code.success,
          connect := fun _ _ => Code.success } [10, 11] 1
        { validated := 0,
          arch := { assoc := [11], mall := [], confirmableMarks := [],
                    preconfMarks := [], unconfMarks := [], txsConn := [] },
          events := [], faulted := false, closed := false } =
        Preconfirm.bumpFrom
          { bypass := fun _ => false, getBlock := fun _ => some 1,
            getCtx := fun _ => some 0, populate := fun _ => true,
            accept := fun _ _ => Code.success,
            connect := fun _ _ => Code.success } [10, 11] 2
          { validated := 1,
            arch := Preconfirm.markPreconf
              (Preconfirm.markTxsConn
                { assoc := [11], mall := [], confirmableMarks := [],
                  preconfMarks := [], unconfMarks := [], txsConn := [] } 11) 11,
            events := [Preconfirm.PEv.preconfirmable Code.success 1],
            faulted := false, closed := false }) := by
  refine ⟨by decide, by decide, ?_⟩
  exact (preconfirm_bump_advance
    { bypass := fun _ => false, getBlock := fun _ => some 1,
      getCtx := fun _ => some 0, populate := fun _ => true,
      accept := fun _ _ => Code.success, connect := fun _ _ => Code.success }
    [10, 11]
    { validated := 0,
      arch := { assoc := [11], mall := [], confirmableMarks := [],
                preconfMarks := [], unconfMarks := [], txsConn := [] },
      events := [], faulted := false, closed := false }
    1 11 (by decide) (by decide) (by decide)).1 (by decide)

/-- C2 counterexample: with a cached `block_confirmable` state at the drained
height, `do_bump` increments `validated` and emits `preconfirmable(height)`
but does not touch the archive — `txs_connected` and `block_preconfirmable`
are not set on the link, contradicting the claim that they are. -/
theorem preconfirm_cached_state_counterexample :
    Preconfirm.doBump
      { bypass := fun _ => false, getBlock := fun _ => none,
        getCtx := fun _ => none, populate := fun _ => false,
        accept := fun _ _ => Code.success, connect := fun _ _ => Code.success }
      [10, 11]
      { validated := 0,
        arch := { assoc := [11], mall := [], confirmableMarks := [11],
                  preconfMarks := [], unconfMarks := [], txsConn := [] },
        events := [], faulted := false, closed := false } =
      { validated := 1,
        arch := { assoc := [11], mall := [], confirmableMarks := [11],
                  preconfMarks := [], unconfMarks := [], txsConn := [] },
        events := [Preconfirm.PEv.preconfirmable Code.blockConfirmable 1],
        faulted := false, closed := false } ∧
    (Preconfirm.doBump
      { bypass := fun _ => false, getBlock := fun _ => none,
        getCtx := fun _ => none, populate := fun _ => false,
        accept := fun _ _ => Code.success, connect := fun _ _ => Code.success }
      [10, 11]
      { validated := 0,
        arch := { assoc := [11], mall := [], confirmableMarks := [11],
                  preconfMarks := [], unconfMarks := [], txsConn := [] },
        events := [], faulted := false, closed := false }).arch.txsConn.contains
      11 = false ∧
    (Preconfirm.doBump
      { bypass := fun _ => false, getBlock := fun _ => none,
        getCtx := fun _ => none, populate := fun _ => false,
        accept := fun _ _ => Code.success, connect := fun _ _ => Code.success }
      [10, 11]
      { validated := 0,
        arch := { assoc := [11], mall := [], confirmableMarks := [11],
                  preconfMarks := [], unconfMarks := [], txsConn := [] },
        events := [], faulted := false, closed := false }).arch.preconfMarks.contains
      11 = false := by
  refine ⟨by decide, by decide, by decide⟩

/-- C3 (amended): `do_disorganized(top)` sets `validated` to `top` and then
invokes the checked handler at `top`, whose `height = validated + 1` gate can
never hold after that assignment — so no bump drain runs and the state is
otherwise unchanged; likewise `do_regressed(p)` with `p < validated` sets
`validated` to `p` and performs no drain. -/
theorem preconfirm_disorganized_regressed_set_only (o : Preconfirm.VOracle)
    (cand : List Nat) (s : Preconfirm.PSt) (top p : Nat) :
    Preconfirm.doDisorganized o cand s top = { s with validated := top } ∧
    (p < s.validated →
      Preconfirm.doRegressed o cand s p = { s with validated := p }) := by
  constructor
  · simp [Preconfirm.doDisorganized, Preconfirm.doChecked]
  · intro h
    simp only [Preconfirm.doRegressed, if_pos h]
    simp [Preconfirm.doChecked]

/-- Witness for C3 at a concrete state. -/
theorem preconfirm_disorganized_regressed_witness :
    (2 < 5 ∧
      Preconfirm.doRegressed
        { bypass := fun _ => false, getBlock := fun _ => none,
          getCtx := fun _ => none, populate := fun _ => false,
          accept := fun _ _ => Code.success,
          connect := fun _ _ => Code.success } []
        { validated := 5,
          arch := { assoc := [], mall := [], confirmableMarks := [],
                    preconfMarks := [], unconfMarks := [], txsConn := [] },
          events := [], faulted := false, closed := false } 2 =
        { validated := 2,
          arch := { assoc := [], mall := [], confirmableMarks := [],
                    preconfMarks := [], unconfMarks := [], txsConn := [] },
          events := [], faulted := false, closed := false }) := by
  exact ⟨by decide,
    (preconfirm_disorganized_regressed_set_only
      { bypass := fun _ => false, getBlock := fun _ => none,
        getCtx := fun _ => none, populate := fun _ => false,
        accept := fun _ _ => Code.success, connect := fun _ _ => Code.success }
      []
      { validated := 5,
        arch := { assoc := [], mall := [], confirmableMarks := [],
                  preconfMarks := [], unconfMarks := [], txsConn := [] },
        events := [], faulted := false, closed := false } 0 2).2 (by decide)⟩

/-- C3 counterexample: at a state where the candidate block just above the
confirmed top is associated and validates successfully, performing the bump
drain after setting `validated` would advance it and emit an event, but
`do_disorganized` does not — so "sets `validated` and then performs the bump
drain" is false of the code. -/
theorem preconfirm_disorganized_no_bump_counterexample :
    Preconfirm.doDisorganized
      { bypass := fun _ => false, getBlock := fun _ => some 1,
        getCtx := fun _ => some 0, populate := fun _ => true,
        accept := fun _ _ => Code.success, connect := fun _ _ => Code.success }
      [10, 11]
      { validated := 5,
        arch := { assoc := [11], mall := [], confirmableMarks := [],
                  preconfMarks := [], unconfMarks := [], txsConn := [] },
        events := [], faulted := false, closed := false } 0 ≠
    Preconfirm.doBump
      { bypass := fun _ => false, getBlock := fun _ => some 1,
        getCtx := fun _ => some 0, populate := fun _ => true,
        accept := fun _ _ => Code.success, connect := fun _ _ => Code.success }
      [10, 11]
      { validated := 0,
        arch := { assoc := [11], mall := [], confirmableMarks := [],
                  preconfMarks := [], unconfMarks := [], txsConn := [] },
        events := [], faulted := false, closed := false } := by
  decide

/-- C4 (code bug): at a block whose cached state is non-terminal
(`get_block_state` = `unassociated`), with block and context loadable,
`populate` succeeding, and `block.accept` failing with a distinctive code
(42): `validate` returns the stale `get_block_state` code `unassociated`,
not the accept failure code — because
`return ec = block.accept(...) ? ec : block.connect(ctx);` parses as
`ec = (accept(...) ? ec : connect(ctx))`, discarding the accept code.  The
`connect` validator is still never consulted on accept failure (same result
under a different `connect`), and when `accept` succeeds the `connect` result
is returned, as the claim states. -/
theorem preconfirm_validate_accept_failure_code_bug :
    Preconfirm.validateLk
      { bypass := fun _ => false, getBlock := fun _ => some 2,
        getCtx := fun _ => some 9, populate := fun _ => true,
        accept := fun _ _ => Code.other 42,
        connect := fun _ _ => Code.success }
      ⟨[], [], [], [], [], []⟩ 3 7 = Code.unassociated ∧
    Preconfirm.validateLk
      { bypass := fun _ => false, getBlock := fun _ => some 2,
        getCtx := fun _ => some 9, populate := fun _ => true,
        accept := fun _ _ => Code.other 42,
        connect := fun _ _ => Code.success }
      ⟨[], [], [], [], [], []⟩ 3 7 ≠ Code.other 42 ∧
    Preconfirm.validateLk
      { bypass := fun _ => false, getBlock := fun _ => some 2,
        getCtx := fun _ => some 9, populate := fun _ => true,
        accept := fun _ _ => Code.other 42,
        connect := fun _ _ => Code.other 99 }
      ⟨[], [], [], [], [], []⟩ 3 7 = Code.unassociated ∧
    Preconfirm.validateLk
      { bypass := fun _ => false, getBlock := fun _ => some 2,
        getCtx := fun _ => some 9, populate := fun _ => true,
        accept := fun _ _ => Code.success,
        connect := fun _ _ => Code.other 7 }
      ⟨[], [], [], [], [], []⟩ 3 7 = Code.other 7 := by
  refine ⟨by decide, by decide, by decide, by decide⟩
